import Mathlib

/-!
# xerxes.cpp: particle/field coupling loop

A shallow embedding of `src/xerxes.cpp`.

* `real_t` (C++ `double`) is modelled in exact arithmetic: every definition is generic in a
  linearly ordered field `α` (instantiated at `ℚ` for concrete evaluations).
* Ranks, array indices and the particle-loop counter are natural numbers, `nparticles` is an
  integer.  The two size computations of `main` keep their machine types: `nx*ny*nz` is a
  32-bit `int` product (`grid_cells`), `sizeof(real_t)*nx*ny*nz` a 64-bit `size_t` product
  (`memset_bytes`).
* The MADNESS field library (`real_function_3d`, `CoulombOperator`, `real_derivative_3d`,
  `FunctionDefaults<3>`) and the Fortran kernels (`get_dim_`, `part_init_`) are not part of the
  source file; they enter as parameters (`FieldLibrary`, `Startup`, `part_init`).
* Raw arrays (`real_t*`) are index-to-value maps `Nat → α`; an allocation never fails for
  lack of memory.
* Loops whose trip count depends on run-time data take a `fuel` argument and return `none`
  when it is exhausted.
-/

set_option linter.unusedSectionVars false

namespace Xerxes

variable {α : Type} [LinearOrderedField α]

/-- The type `coordT = Vector<double,3>`: three components indexed by `0, 1, 2`. -/
abbrev coordT (α : Type) := Fin 3 → α

/-- The part of the global `FunctionDefaults<3>` state that the program writes. -/
structure FunctionDefaults (α : Type) where
  cell_lo : α
  cell_hi : α
  bc_periodic : Bool
  apply_randomize : Bool
  autorefine : Bool
  do_refine : Bool
  k : Int
  thresh : α

/-- Modelled from the spec: the class `DensityProjector` of the header
`density_projector3d.hpp`, which is not part of the source.  The spec describes it as a sampler
that wraps the discretized density array together with the grid dimensions and is read-only
over the array; it is therefore a record holding the dimensions and the array contents. -/
structure DensityProjector (α : Type) where
  nx : Int
  ny : Int
  nz : Int
  density : Nat → α

/-- The operations of the external field library that the program calls.  `Field` stands for
`real_function_3d`. -/
structure FieldLibrary (α : Type) where
  /-- The type `real_function_3d`. -/
  Field : Type
  /-- The call `real_factory_3d(world).functor(density_functor)`. -/
  functor : FunctionDefaults α → DensityProjector α → Field
  /-- The call `CoulombOperator(world, precision, threshold)` applied to a field. -/
  CoulombOperator : FunctionDefaults α → α → α → Field → Field
  /-- The method `trace()`: the integral of a field over the cell. -/
  trace : Field → α
  /-- The call `FunctionDefaults<3>::get_cell_volume()`. -/
  get_cell_volume : FunctionDefaults α → α
  /-- The operator `field - scalar`. -/
  sub_scalar : Field → α → Field
  /-- The call `real_derivative_3d(world, axis)` applied to a field. -/
  derivative : Fin 3 → Field → Field
  /-- The method `eval(position)`. -/
  eval : Field → coordT α → α

/-- The process group as the program sees it: `world.rank()` and `world.size()`. -/
structure World where
  rank : Nat
  size : Nat

/-- The six particle arrays `x, y, z, vx, vy, vz`. -/
structure Particles (α : Type) where
  x : Nat → α
  y : Nat → α
  z : Nat → α
  vx : Nat → α
  vy : Nat → α
  vz : Nat → α

/-- The values written by the startup kernel `get_dim_`. -/
structure Startup where
  nx : Int
  ny : Int
  nz : Int
  nparticles : Int

/-- The function `set_initial_parameters(nx)`, lines 19-29. -/
def set_initial_parameters (nx : Int) (d : FunctionDefaults α) : FunctionDefaults α :=
  { d with
    cell_lo := ((1 : Int) : α)
    cell_hi := (nx : α)
    bc_periodic := true
    apply_randomize := true
    autorefine := true
    do_refine := true }

/-- The function `set_projection_precision(order, threshold)`, lines 31-36. -/
def set_projection_precision (order : Int) (threshold : α) (d : FunctionDefaults α) :
    FunctionDefaults α :=
  { d with k := order, thresh := threshold }

/-- The function `build_projected_density`, lines 38-45. -/
def build_projected_density (lib : FieldLibrary α) (d : FunctionDefaults α) (nx ny nz : Int)
    (density : Nat → α) : lib.Field :=
  let density_functor : DensityProjector α := { nx := nx, ny := ny, nz := nz, density := density }
  lib.functor d density_functor

/-- The function `compute_potential`, lines 47-71. -/
def compute_potential (lib : FieldLibrary α) (d : FunctionDefaults α)
    (projected_density : lib.Field) (precision threshold : α) : lib.Field :=
  let coulomb_operator := lib.CoulombOperator d precision threshold
  let potential := coulomb_operator projected_density
  let integral := lib.trace potential
  let volume := lib.get_cell_volume d
  let mean := integral / volume
  lib.sub_scalar potential mean

/-- The function `solve_potential`, lines 115-160.  The particle arguments `x, y, z` and
`nparticles` are unused by the function body.  Returns the potential and the updated global
defaults. -/
def solve_potential (lib : FieldLibrary α) (d : FunctionDefaults α) (_x _y _z : Nat → α)
    (nx ny nz : Int) (_nparticles : Int) (density : Nat → α) :
    lib.Field × FunctionDefaults α :=
  let d1 := set_initial_parameters nx d
  let d2 := set_projection_precision 9 (1 / 10 ^ 7) d1
  let rho_interp := build_projected_density lib d2 nx ny nz density
  let phi := compute_potential lib d2 rho_interp (1 / 10 ^ 6) (1 / 10 ^ 8)
  (phi, d2)

/-- The function `compute_gradient`, lines 162-170. -/
def compute_gradient (lib : FieldLibrary α) (potential : lib.Field) : Fin 3 → lib.Field :=
  fun direction =>
    match direction with
    | 0 => lib.derivative 0 potential
    | 1 => lib.derivative 1 potential
    | 2 => lib.derivative 2 potential

/-- The local constant `nx(128)` of `update_particles`, line 192. -/
def update_particles.nx : Int := 128

/-- The local constant `ny(128)` of `update_particles`, line 192. -/
def update_particles.ny : Int := 128

/-- The local constant `nz(128)` of `update_particles`, line 192. -/
def update_particles.nz : Int := 128

/-- The first inner loop, lines 210-215:
`velocity[direction] += gradient[direction].eval(position) * timestep`. -/
def velocity_loop (lib : FieldLibrary α) (gradient : Fin 3 → lib.Field) (position : coordT α)
    (timestep : α) (velocity : coordT α) : coordT α :=
  ([0, 1, 2] : List (Fin 3)).foldl
    (fun vel direction =>
      Function.update vel direction
        (vel direction + lib.eval (gradient direction) position * timestep))
    velocity

/-- The second inner loop, lines 217-221:
`position[direction] += velocity[direction] * timestep`. -/
def position_loop (velocity : coordT α) (timestep : α) (position : coordT α) : coordT α :=
  ([0, 1, 2] : List (Fin 3)).foldl
    (fun pos direction =>
      Function.update pos direction (pos direction + velocity direction * timestep))
    position

/-- The integer correction of lines 225-227:
`p > n ? -(n-1) : (p < 1 ? (n-1) : 0)`. -/
def wrap_offset (n : Int) (p : α) : Int :=
  if p > (n : α) then -(n - 1) else (if p < 1 then (n - 1) else 0)

/-- The value stored for a pre-wrap coordinate `p`: `p + (p > n ? -(n-1) : ...)`. -/
def wrap_store (n : Int) (p : α) : α :=
  p + ((wrap_offset n p : Int) : α)

/-- The body of the particle loop, lines 202-229, for loop counter `particle`. -/
def update_body (lib : FieldLibrary α) (gradient : Fin 3 → lib.Field) (timestep : α)
    (particle : Nat) (s : Particles α) : Particles α :=
  let position0 : coordT α := ![s.x particle, s.y particle, s.z particle]
  let velocity0 : coordT α := ![s.vx particle, s.vy particle, s.vz particle]
  let velocity := velocity_loop lib gradient position0 timestep velocity0
  let position := position_loop velocity timestep position0
  { x := Function.update s.x particle (wrap_store update_particles.nx (position 0))
    y := Function.update s.y particle (wrap_store update_particles.ny (position 1))
    z := Function.update s.z particle (wrap_store update_particles.nz (position 2))
    vx := Function.update s.vx particle (velocity 0)
    vy := Function.update s.vy particle (velocity 1)
    vz := Function.update s.vz particle (velocity 2) }

/-- The loop statement of line 199,
`for (int particle = start; particle < upper_limit; particle += size) body`,
with the loop counter passed explicitly.  One unit of fuel is spent per test of the loop
condition. -/
def stride_loop {σ : Type} (size : Nat) (upper_limit : Int) (body : Nat → σ → σ) :
    Nat → Nat → σ → Option σ
  | 0, _, _ => none
  | fuel + 1, particle, s =>
    if (particle : Int) < upper_limit then
      stride_loop size upper_limit body fuel (particle + size) (body particle s)
    else
      some s

/-- The sequence of values the loop counter of line 199 takes inside the body: the stride loop
run with a body that records its counter. -/
def visited (fuel : Nat) (rank size : Nat) (upper_limit : Int) : Option (List Nat) :=
  stride_loop size upper_limit (fun particle log => log ++ [particle]) fuel rank []

/-- The function `update_particles`, lines 190-238. -/
def update_particles (fuel : Nat) (lib : FieldLibrary α) (world : World) (s : Particles α)
    (nparticles : Int) (potential : lib.Field) (timestep : α) : Option (Particles α) :=
  let gradient := compute_gradient lib potential
  let upper_limit := nparticles
  stride_loop world.size upper_limit (update_body lib gradient timestep) fuel world.rank s

/-- Two particle stores hold the same six values at index `i`. -/
def Particles.agree_at (s t : Particles α) (i : Nat) : Prop :=
  s.x i = t.x i ∧ s.y i = t.y i ∧ s.z i = t.z i ∧
    s.vx i = t.vx i ∧ s.vy i = t.vy i ∧ s.vz i = t.vz i

/-- The position of particle `i` as read at line 203. -/
def Particles.position (s : Particles α) (i : Nat) : coordT α :=
  ![s.x i, s.y i, s.z i]

/-- The velocity of particle `i` as read at line 204. -/
def Particles.velocity (s : Particles α) (i : Nat) : coordT α :=
  ![s.vx i, s.vy i, s.vz i]

/-- The value of the local `velocity` of `update_particles` after the first inner loop
(line 215) when the loop counter is `i`. -/
def new_velocity (lib : FieldLibrary α) (potential : lib.Field) (timestep : α)
    (s : Particles α) (i : Nat) : coordT α :=
  velocity_loop lib (compute_gradient lib potential) (s.position i) timestep (s.velocity i)

/-- The value of the local `position` of `update_particles` after the second inner loop
(line 221) when the loop counter is `i`: the pre-wrap position. -/
def prewrap_position (lib : FieldLibrary α) (potential : lib.Field) (timestep : α)
    (s : Particles α) (i : Nat) : coordT α :=
  position_loop (new_velocity lib potential timestep s i) timestep (s.position i)

/-- Particle `i` lies in `[1, nx] × [1, ny] × [1, nz]`, with the extents of
`update_particles`. -/
def Particles.in_domain (s : Particles α) (i : Nat) : Prop :=
  (1 ≤ s.x i ∧ s.x i ≤ ((update_particles.nx : Int) : α)) ∧
  (1 ≤ s.y i ∧ s.y i ≤ ((update_particles.ny : Int) : α)) ∧
  (1 ≤ s.z i ∧ s.z i ≤ ((update_particles.nz : Int) : α))

/-- The value that a mathematical integer takes when it is stored in a 32-bit two's-complement
`int`. -/
def int_wrap (v : Int) : Int :=
  (v + 2 ^ 31) % 2 ^ 32 - 2 ^ 31

/-- The product of two `int` values, as a 32-bit `int`. -/
def int_mul (a b : Int) : Int :=
  int_wrap (a * b)

/-- The conversion of an `int` to the 64-bit unsigned type `size_t`. -/
def to_size_t (v : Int) : Int :=
  v % 2 ^ 64

/-- The product of two `size_t` values. -/
def size_t_mul (a b : Int) : Int :=
  (a * b) % 2 ^ 64

/-- The expression `nx*ny*nz` of line 263, computed in `int`. -/
def grid_cells (nx ny nz : Int) : Int :=
  int_mul (int_mul nx ny) nz

/-- The expression `sizeof(real_t)*nx*ny*nz` of line 311: `sizeof(real_t)` is the `size_t`
value `8`, so every factor is converted to `size_t` and the product is taken there. -/
def memset_bytes (nx ny nz : Int) : Int :=
  size_t_mul (size_t_mul (size_t_mul 8 (to_size_t nx)) (to_size_t ny)) (to_size_t nz)

/-- The state of the step loop of `main`: the particle arrays, the density array with its
allocated length, the global field defaults, and a record of what the loop has done so far
(`solve_calls`: the density array handed to each `solve_potential` call, in order; `steps`:
completed iterations). -/
structure Simulation (α : Type) where
  particles : Particles α
  mass : Nat → α
  density : Nat → α
  density_size : Int
  defaults : FunctionDefaults α
  solve_calls : List (Nat → α)
  steps : Nat

/-- Why an iteration of the step loop does not complete. -/
inductive Halt where
  /-- The model of the particle loop ran out of fuel. -/
  | out_of_fuel : Halt
  /-- The `memset` of line 311 is longer than the density array. -/
  | out_of_bounds : Halt

/-- How a run of `main` ends. -/
inductive Run (α : Type) where
  /-- A `std::vector::resize` with a negative `int` argument (converted to a `size_type` above
  `max_size()`) throws `std::length_error`; nothing catches it, so the run is terminated before
  the step loop. -/
  | length_error : Run α
  /-- The model ran out of fuel. -/
  | out_of_fuel : Run α
  /-- The `memset` of line 311 wrote past the end of the density array. -/
  | memory_fault : Run α
  /-- The statement `return status` was reached with the given final state. -/
  | returned (status : Int) (final : Simulation α) : Run α

/-- The number of step-loop iterations a run completed. -/
def Run.iterations : Run α → Nat
  | Run.returned _ final => final.steps
  | _ => 0

/-- The call `v.resize(n)` on an empty `std::vector<real_t>` with an `int` argument: fails for
a negative `n`, otherwise yields a zero-filled array. -/
def vector_resize (n : Int) : Option (Nat → α) :=
  if n < 0 then none else some (fun _ => 0)

/-- The effect of an in-bounds `memset(&density[0], 0, sizeof(real_t)*count)`: the first
`count` entries become zero. -/
def memset_zero (density : Nat → α) (count : Int) : Nat → α :=
  fun i => if (i : Int) < count then 0 else density i

/-- The eight `resize` calls of `main`, lines 256-263. -/
def allocate (nx ny nz nparticles : Int) : Option (Particles α × (Nat → α) × (Nat → α)) := do
  let x ← vector_resize nparticles
  let y ← vector_resize nparticles
  let z ← vector_resize nparticles
  let vx ← vector_resize nparticles
  let vy ← vector_resize nparticles
  let vz ← vector_resize nparticles
  let mass ← vector_resize nparticles
  let density ← vector_resize (grid_cells nx ny nz)
  pure ({ x := x, y := y, z := z, vx := vx, vy := vy, vz := vz }, mass, density)

/-- One iteration of the step loop of `main`, lines 279-318.  The call of `project_density_`
(line 285) is commented out in the source and therefore absent here.  The `memset` of line 311
clears `memset_bytes nx ny nz` bytes, eight per entry; it stays inside the density array only
if that is at most eight times the allocated length. -/
def step_body (fuel : Nat) (lib : FieldLibrary α) (world : World) (nx ny nz nparticles : Int)
    (timestep : α) (st : Simulation α) (_step : Nat) : Except Halt (Simulation α) :=
  let solved := solve_potential lib st.defaults st.particles.x st.particles.y st.particles.z
    nx ny nz nparticles st.density
  match update_particles fuel lib world st.particles nparticles solved.1 timestep with
  | none => Except.error Halt.out_of_fuel
  | some moved =>
    if memset_bytes nx ny nz ≤ 8 * st.density_size then
      Except.ok
        { particles := moved
          mass := st.mass
          density := memset_zero st.density (memset_bytes nx ny nz / 8)
          density_size := st.density_size
          defaults := solved.2
          solve_calls := st.solve_calls ++ [st.density]
          steps := st.steps + 1 }
    else
      Except.error Halt.out_of_bounds

/-- The assignment `timestep = 5` of `main`, line 248. -/
def main.timestep : α := 5

/-- The assignment `nstep = 3` of `main`, line 277. -/
def main.nstep : Nat := 3

/-- The function `main`, lines 240-327.  `get_dim` is what `get_dim_` writes, `part_init` is
the effect of `part_init_` on the particle arrays and the mass array, `d0` is the state of the
global field defaults after `startup`. -/
def main (fuel : Nat) (lib : FieldLibrary α) (world : World) (get_dim : Startup)
    (part_init : Int → Int → Int → Int → Particles α → (Nat → α) → Particles α × (Nat → α))
    (d0 : FunctionDefaults α) : Run α :=
  let timestep : α := main.timestep
  let nx := get_dim.nx
  let ny := get_dim.ny
  let nz := get_dim.nz
  let nparticles := get_dim.nparticles
  match allocate nx ny nz nparticles with
  | none => Run.length_error
  | some (arrays, mass, density) =>
    let filled := part_init nx ny nz nparticles arrays mass
    let nstep := main.nstep
    let start : Simulation α :=
      { particles := filled.1
        mass := filled.2
        density := density
        density_size := grid_cells nx ny nz
        defaults := d0
        solve_calls := []
        steps := 0 }
    match (List.range nstep).foldlM (step_body fuel lib world nx ny nz nparticles timestep)
        start with
    | Except.error Halt.out_of_fuel => Run.out_of_fuel
    | Except.error Halt.out_of_bounds => Run.memory_fault
    | Except.ok final => Run.returned 0 final

/-- A concrete field library over `ℚ` for evaluating the definitions on examples: a field is
an affine function `a + b * x` of the first coordinate on the cell `[1, 3]^3` (volume `8`),
stored as the pair `(a, b)`. -/
def affine_library : FieldLibrary ℚ where
  Field := ℚ × ℚ
  functor := fun _ sampler => (sampler.density 0, sampler.density 1 - sampler.density 0)
  CoulombOperator := fun _ _ _ f => (f.2 + 1, f.1)
  trace := fun f => 8 * f.1 + 16 * f.2
  get_cell_volume := fun _ => 8
  sub_scalar := fun f c => (f.1 - c, f.2)
  derivative := fun axis f => if axis = 0 then (f.2, 0) else (0, 0)
  eval := fun f p => f.1 + f.2 * p 0

/-- A value of the global field defaults for evaluating the definitions on examples. -/
def sample_defaults : FunctionDefaults ℚ :=
  { cell_lo := 0, cell_hi := 1, bc_periodic := false, apply_randomize := false,
    autorefine := false, do_refine := false, k := 6, thresh := 1 / 10 ^ 4 }

/-- A particle store for evaluating the definitions on examples: every particle is at rest at
the point `(x0, 1, 1)`. -/
def resting_store (x0 : ℚ) : Particles ℚ :=
  { x := fun _ => x0, y := fun _ => 1, z := fun _ => 1,
    vx := fun _ => 0, vy := fun _ => 0, vz := fun _ => 0 }

/-- A `part_init_` for evaluating `main` on examples: every particle starts at `(8, 4, 4)` with
velocity `(1/10, 0, 0)` and mass `1`. -/
def drifting_init (_nx _ny _nz _nparticles : Int) (_arrays : Particles ℚ) (_mass : Nat → ℚ) :
    Particles ℚ × (Nat → ℚ) :=
  ({ x := fun _ => 8, y := fun _ => 4, z := fun _ => 4,
     vx := fun _ => 1 / 10, vy := fun _ => 0, vz := fun _ => 0 }, fun _ => 1)

/-! ## The stride loop -/

theorem foldl_record (l acc : List Nat) :
    l.foldl (fun log particle => log ++ [particle]) acc = acc ++ l := by
  induction l generalizing acc with
  | nil => simp
  | cons a l ih => simp [ih]

theorem stride_gap (size p i : Nat) (hne : i ≠ p) (hle : p ≤ i)
    (hmod : i % size = p % size) : p + size ≤ i := by
  have hz : (i - p) % size = 0 := Nat.sub_mod_eq_zero_of_mod_eq hmod
  have hdvd : size ∣ i - p := Nat.dvd_of_mod_eq_zero hz
  have hpos : 0 < i - p := by omega
  have := Nat.le_of_dvd hpos hdvd
  omega

/-- The stride loop terminates when the stride is positive, and it applies its body exactly to
the counters `p, p + size, p + 2 * size, ...` below the limit, in increasing order. -/
theorem stride_loop_spec (size : Nat) (upper_limit : Int) (hsize : 1 ≤ size) :
    ∀ (fuel p : Nat), (upper_limit - p).toNat < fuel →
      ∃ l : List Nat,
        (∀ (σ : Type) (body : Nat → σ → σ) (s : σ),
          stride_loop size upper_limit body fuel p s
            = some (l.foldl (fun st particle => body particle st) s)) ∧
        l.Nodup ∧
        (∀ i, i ∈ l ↔ (p ≤ i ∧ (i : Int) < upper_limit ∧ i % size = p % size)) := by
  intro fuel
  induction fuel with
  | zero => intro p h; omega
  | succ fuel ih =>
    intro p hfuel
    by_cases hlt : (p : Int) < upper_limit
    · obtain ⟨l, hrun, hnodup, hmem⟩ := ih (p + size) (by omega)
      refine ⟨p :: l, ?_, ?_, ?_⟩
      · intro σ body s
        simp [stride_loop, hlt, hrun]
      · refine List.nodup_cons.mpr ⟨?_, hnodup⟩
        intro hp
        have := (hmem p).mp hp
        omega
      · intro i
        rw [List.mem_cons, hmem i, Nat.add_mod_right]
        constructor
        · rintro (rfl | ⟨h1, h2, h3⟩)
          · exact ⟨le_refl _, hlt, rfl⟩
          · exact ⟨by omega, h2, h3⟩
        · rintro ⟨h1, h2, h3⟩
          by_cases hip : i = p
          · exact Or.inl hip
          · exact Or.inr ⟨stride_gap size p i hip h1 h3, h2, h3⟩
    · refine ⟨[], ?_, List.nodup_nil, ?_⟩
      · intro σ body s
        simp [stride_loop, hlt]
      · intro i
        simp only [List.not_mem_nil, false_iff]
        rintro ⟨h1, h2, _⟩
        omega

theorem visited_spec (fuel r P N : Nat) (hP : 1 ≤ P) (hr : r < P) (hfuel : N < fuel) :
    ∃ l : List Nat,
      visited fuel r P (N : Int) = some l ∧
      (∀ (σ : Type) (body : Nat → σ → σ) (s : σ),
          stride_loop P (N : Int) body fuel r s
            = some (l.foldl (fun st particle => body particle st) s)) ∧
      l.Nodup ∧ (∀ i, i ∈ l ↔ (i < N ∧ i % P = r)) := by
  obtain ⟨l, hrun, hnodup, hmem⟩ := stride_loop_spec P (N : Int) hP fuel r (by omega)
  refine ⟨l, ?_, hrun, hnodup, ?_⟩
  · simp [visited, hrun, foldl_record]
  · intro i
    rw [hmem i, Nat.mod_eq_of_lt hr]
    constructor
    · rintro ⟨_, h2, h3⟩
      exact ⟨by omega, h3⟩
    · rintro ⟨h2, h3⟩
      have := Nat.mod_le i P
      exact ⟨by omega, by omega, h3⟩

/-- C1: partition completeness of the stride loop of `update_particles`.  For `P ≥ 1` workers
and `N` particles (and enough fuel, `N < fuel`), the loop of every rank `r < P` terminates and
visits each index at most once; index `i` is visited by rank `r` iff `i < N` and `i mod P = r`;
the index lists of two different ranks are disjoint; and an index is visited by some rank iff
it is below `N`. -/
theorem stride_partition (P N fuel : Nat) (hP : 1 ≤ P) (hfuel : N < fuel) :
    (∀ r, r < P → ∃ l, visited fuel r P (N : Int) = some l ∧ l.Nodup ∧
        ∀ i, i ∈ l ↔ (i < N ∧ i % P = r)) ∧
    (∀ r s l m, r < P → s < P → r ≠ s →
        visited fuel r P (N : Int) = some l → visited fuel s P (N : Int) = some m →
        ∀ i, i ∈ l → i ∉ m) ∧
    (∀ i, i < N ↔ ∃ r l, r < P ∧ visited fuel r P (N : Int) = some l ∧ i ∈ l) := by
  refine ⟨?_, ?_, ?_⟩
  · intro r hr
    obtain ⟨l, hv, _, hnodup, hmem⟩ := visited_spec fuel r P N hP hr hfuel
    exact ⟨l, hv, hnodup, hmem⟩
  · intro r s l m hr hs hrs hl hm i hil him
    obtain ⟨l1, hv1, _, _, hmem1⟩ := visited_spec fuel r P N hP hr hfuel
    obtain ⟨m1, hv2, _, _, hmem2⟩ := visited_spec fuel s P N hP hs hfuel
    rw [hv1] at hl
    rw [hv2] at hm
    cases hl
    cases hm
    have h1 := (hmem1 i).mp hil
    have h2 := (hmem2 i).mp him
    omega
  · intro i
    constructor
    · intro hi
      have hr : i % P < P := Nat.mod_lt i (by omega)
      obtain ⟨l, hv, _, _, hmem⟩ := visited_spec fuel (i % P) P N hP hr hfuel
      exact ⟨i % P, l, hr, hv, (hmem i).mpr ⟨hi, rfl⟩⟩
    · rintro ⟨r, l, hr, hv, hil⟩
      obtain ⟨l1, hv1, _, _, hmem1⟩ := visited_spec fuel r P N hP hr hfuel
      rw [hv1] at hv
      cases hv
      exact ((hmem1 i).mp hil).1

theorem stride_partition_witness :
    (∀ r, r < 3 → ∃ l, visited 8 r 3 ((7 : Nat) : Int) = some l ∧ l.Nodup ∧
        ∀ i, i ∈ l ↔ (i < 7 ∧ i % 3 = r)) ∧
    (∀ r s l m, r < 3 → s < 3 → r ≠ s →
        visited 8 r 3 ((7 : Nat) : Int) = some l → visited 8 s 3 ((7 : Nat) : Int) = some m →
        ∀ i, i ∈ l → i ∉ m) ∧
    (∀ i, i < 7 ↔ ∃ r l, r < 3 ∧ visited 8 r 3 ((7 : Nat) : Int) = some l ∧ i ∈ l) :=
  stride_partition 3 7 8 (by decide) (by decide)

/-- Rank `1` of `3` workers with `7` particles visits the indices `1, 4`; rank `0` visits
`0, 3, 6`. -/
theorem visited_example :
    visited 8 1 3 7 = some [1, 4] ∧ visited 8 0 3 7 = some [0, 3, 6] := by
  decide

/-- With a stride of zero the loop of line 199 never leaves its first index: the model runs out
of fuel. -/
theorem visited_zero_stride : visited 100 0 0 7 = none := by
  decide

/-! ## One particle -/

theorem velocity_loop_apply (lib : FieldLibrary α) (g : Fin 3 → lib.Field) (p : coordT α)
    (dt : α) (v : coordT α) (a : Fin 3) :
    velocity_loop lib g p dt v a = v a + lib.eval (g a) p * dt := by
  fin_cases a <;> simp [velocity_loop, Function.update]

theorem position_loop_apply (v : coordT α) (dt : α) (p : coordT α) (a : Fin 3) :
    position_loop v dt p a = p a + v a * dt := by
  fin_cases a <;> simp [position_loop, Function.update]

theorem agree_at_refl (s : Particles α) (i : Nat) : s.agree_at s i :=
  ⟨rfl, rfl, rfl, rfl, rfl, rfl⟩

theorem agree_at_symm {s t : Particles α} {i : Nat} (h : s.agree_at t i) : t.agree_at s i :=
  ⟨h.1.symm, h.2.1.symm, h.2.2.1.symm, h.2.2.2.1.symm, h.2.2.2.2.1.symm, h.2.2.2.2.2.symm⟩

theorem agree_at_trans {s t u : Particles α} {i : Nat} (h : s.agree_at t i)
    (k : t.agree_at u i) : s.agree_at u i :=
  ⟨h.1.trans k.1, h.2.1.trans k.2.1, h.2.2.1.trans k.2.2.1, h.2.2.2.1.trans k.2.2.2.1,
    h.2.2.2.2.1.trans k.2.2.2.2.1, h.2.2.2.2.2.trans k.2.2.2.2.2⟩

/-- The loop body for counter `i` writes no index other than `i`. -/
theorem update_body_other (lib : FieldLibrary α) (g : Fin 3 → lib.Field) (dt : α)
    (s : Particles α) (i j : Nat) (h : j ≠ i) : (update_body lib g dt i s).agree_at s j := by
  simp [update_body, Particles.agree_at, Function.update, h]

/-- The loop body for counter `i` reads no index other than `i`. -/
theorem update_body_local (lib : FieldLibrary α) (g : Fin 3 → lib.Field) (dt : α)
    (s t : Particles α) (i : Nat) (h : s.agree_at t i) :
    (update_body lib g dt i s).agree_at (update_body lib g dt i t) i := by
  obtain ⟨h1, h2, h3, h4, h5, h6⟩ := h
  simp [update_body, Particles.agree_at, h1, h2, h3, h4, h5, h6]

/-- The values the loop body stores at its own index. -/
theorem update_body_self (lib : FieldLibrary α) (g : Fin 3 → lib.Field) (dt : α)
    (s : Particles α) (i : Nat) :
    (update_body lib g dt i s).vx i = s.vx i + lib.eval (g 0) (s.position i) * dt ∧
    (update_body lib g dt i s).vy i = s.vy i + lib.eval (g 1) (s.position i) * dt ∧
    (update_body lib g dt i s).vz i = s.vz i + lib.eval (g 2) (s.position i) * dt ∧
    (update_body lib g dt i s).x i = wrap_store update_particles.nx
      (s.x i + (s.vx i + lib.eval (g 0) (s.position i) * dt) * dt) ∧
    (update_body lib g dt i s).y i = wrap_store update_particles.ny
      (s.y i + (s.vy i + lib.eval (g 1) (s.position i) * dt) * dt) ∧
    (update_body lib g dt i s).z i = wrap_store update_particles.nz
      (s.z i + (s.vz i + lib.eval (g 2) (s.position i) * dt) * dt) := by
  simp [update_body, velocity_loop_apply, position_loop_apply, Particles.position]

/-- Running the loop body over a duplicate-free list of counters: an index outside the list
keeps its values, an index in the list gets what the body computes from the initial store. -/
theorem foldl_update_body (lib : FieldLibrary α) (g : Fin 3 → lib.Field) (dt : α)
    (l : List Nat) (hl : l.Nodup) (s : Particles α) (j : Nat) :
    (j ∉ l → (l.foldl (fun st particle => update_body lib g dt particle st) s).agree_at s j) ∧
    (j ∈ l → (l.foldl (fun st particle => update_body lib g dt particle st) s).agree_at
      (update_body lib g dt j s) j) := by
  induction l generalizing s with
  | nil => exact ⟨fun _ => agree_at_refl s j, fun h => absurd h (List.not_mem_nil j)⟩
  | cons i l ih =>
    obtain ⟨hi, hl⟩ := List.nodup_cons.mp hl
    obtain ⟨ih1, ih2⟩ := ih hl (update_body lib g dt i s)
    rw [List.foldl_cons]
    constructor
    · intro hj
      have hji : j ≠ i := fun h => hj (h ▸ List.mem_cons_self _ _)
      have hjl : j ∉ l := fun h => hj (List.mem_cons_of_mem _ h)
      exact agree_at_trans (ih1 hjl) (update_body_other lib g dt s i j hji)
    · intro hj
      by_cases hji : j = i
      · subst hji
        exact ih1 hi
      · have hjl : j ∈ l := (List.mem_cons.mp hj).resolve_left hji
        exact agree_at_trans (ih2 hjl)
          (update_body_local lib g dt _ _ j (update_body_other lib g dt s i j hji))

/-- The effect of `update_particles` called by rank `r` of `P`: it returns, owned indices hold
what the loop body computes from the old store, all other indices are untouched. -/
theorem update_particles_spec (fuel : Nat) (lib : FieldLibrary α) (r P N : Nat)
    (s : Particles α) (potential : lib.Field) (dt : α)
    (hP : 1 ≤ P) (hr : r < P) (hfuel : N < fuel) :
    ∃ s1, update_particles fuel lib ⟨r, P⟩ s (N : Int) potential dt = some s1 ∧
      ∀ j, ((j < N ∧ j % P = r) →
          s1.agree_at (update_body lib (compute_gradient lib potential) dt j s) j) ∧
        (¬ (j < N ∧ j % P = r) → s1.agree_at s j) := by
  obtain ⟨l, _, hrun, hnodup, hmem⟩ := visited_spec fuel r P N hP hr hfuel
  refine ⟨_, hrun _ _ s, ?_⟩
  intro j
  have h := foldl_update_body lib (compute_gradient lib potential) dt l hnodup s j
  exact ⟨fun hj => h.2 ((hmem j).mpr hj), fun hj => h.1 (fun hjl => hj ((hmem j).mp hjl))⟩

/-! ## The wrap-around -/

theorem wrap_store_above (n : Int) (p : α) (h : (n : α) < p) :
    wrap_store n p = p - ((n : α) - 1) := by
  simp only [wrap_store, wrap_offset, gt_iff_lt, if_pos h]
  push_cast
  ring

theorem wrap_store_below (n : Int) (p : α) (hn : p ≤ (n : α)) (h : p < 1) :
    wrap_store n p = p + ((n : α) - 1) := by
  simp only [wrap_store, wrap_offset, gt_iff_lt, if_neg (not_lt.mpr hn), if_pos h]
  push_cast
  ring

theorem wrap_store_inside (n : Int) (p : α) (h1 : 1 ≤ p) (hn : p ≤ (n : α)) :
    wrap_store n p = p := by
  simp [wrap_store, wrap_offset, not_lt.mpr hn, not_lt.mpr h1]

theorem wrap_store_range (n : Int) (p : α)
    (hlo : 2 - (n : α) ≤ p) (hhi : p ≤ 2 * (n : α) - 1) :
    1 ≤ wrap_store n p ∧ wrap_store n p ≤ (n : α) := by
  by_cases h : (n : α) < p
  · rw [wrap_store_above n p h]
    constructor <;> linarith
  · have hle : p ≤ (n : α) := not_lt.mp h
    by_cases h1 : p < 1
    · rw [wrap_store_below n p hle h1]
      constructor <;> linarith
    · rw [wrap_store_inside n p (not_lt.mp h1) hle]
      exact ⟨not_lt.mp h1, hle⟩

theorem extent_cast : ((update_particles.nx : Int) : α) = 128 ∧
    ((update_particles.ny : Int) : α) = 128 ∧ ((update_particles.nz : Int) : α) = 128 := by
  simp [update_particles.nx, update_particles.ny, update_particles.nz]

/-- C2: single-cell wrap correctness of the position write-back of `update_particles`, in exact
arithmetic.  With `L` the wrap extent of an axis (the constant `nx`, `ny` or `nz` of
`update_particles`) and `0 < δ < 1`: a pre-wrap coordinate `L + δ` is stored as `δ + 1`, a
pre-wrap coordinate `1 - δ` is stored as `L - δ`, a pre-wrap coordinate `p` with `1 ≤ p ≤ L` is
stored unchanged, and the two corrections are the opposite shifts `-(L - 1)` and `+(L - 1)`. -/
theorem single_cell_wrap (n : Int) (δ p : α)
    (hn : n = update_particles.nx ∨ n = update_particles.ny ∨ n = update_particles.nz)
    (hδ0 : 0 < δ) (hδ1 : δ < 1) (hp1 : 1 ≤ p) (hpL : p ≤ (n : α)) :
    wrap_store n ((n : α) + δ) = δ + 1 ∧
    wrap_store n (1 - δ) = (n : α) - δ ∧
    wrap_store n p = p ∧
    wrap_store n ((n : α) + δ) = ((n : α) + δ) - ((n : α) - 1) ∧
    wrap_store n (1 - δ) = (1 - δ) + ((n : α) - 1) := by
  have hn128 : (n : α) = 128 := by
    rcases hn with h | h | h <;> subst h
    · exact extent_cast.1
    · exact extent_cast.2.1
    · exact extent_cast.2.2
  have ha := wrap_store_above n ((n : α) + δ) (by linarith)
  have hb := wrap_store_below n (1 - δ) (by linarith) (by linarith)
  refine ⟨?_, ?_, wrap_store_inside n p hp1 hpL, ha, hb⟩
  · rw [ha]; ring
  · rw [hb]; ring

theorem single_cell_wrap_witness :
    wrap_store update_particles.ny (((update_particles.ny : Int) : ℚ) + 1 / 4) = 1 / 4 + 1 ∧
    wrap_store update_particles.ny (1 - 1 / 4 : ℚ) = ((update_particles.ny : Int) : ℚ) - 1 / 4 ∧
    wrap_store update_particles.ny (5 : ℚ) = 5 ∧
    wrap_store update_particles.ny (((update_particles.ny : Int) : ℚ) + 1 / 4)
      = (((update_particles.ny : Int) : ℚ) + 1 / 4) - (((update_particles.ny : Int) : ℚ) - 1) ∧
    wrap_store update_particles.ny (1 - 1 / 4 : ℚ)
      = (1 - 1 / 4) + (((update_particles.ny : Int) : ℚ) - 1) :=
  single_cell_wrap update_particles.ny (1 / 4 : ℚ) 5 (Or.inr (Or.inl rfl))
    (by norm_num) (by norm_num) (by norm_num) (by norm_num [update_particles.ny])

/-- The write-back at three pre-wrap coordinates: above the range, below it, inside it. -/
theorem wrap_store_example :
    wrap_store update_particles.nx (513 / 4 : ℚ) = 5 / 4 ∧
    wrap_store update_particles.nx (1 / 2 : ℚ) = 255 / 2 ∧
    wrap_store update_particles.nx (17 / 2 : ℚ) = 17 / 2 := by
  norm_num [wrap_store, wrap_offset, update_particles.nx]

/-! ## The integrator -/

/-- C3: semi-implicit Euler step of `update_particles`.  The call returns (for `P ≥ 1`, rank
`r < P`, fuel above `N`), and for every owned particle `i` the stored velocity on each axis
`a` is `v[a] + eval(g[a], p) * dt`, the three force fields `g = compute_gradient(potential)`
being evaluated at the same old position `p`; the stored position on each axis is the
write-back of the pre-wrap value `p[a] + v_new[a] * dt` built from the just-updated velocity. -/
theorem semi_implicit_euler (fuel : Nat) (lib : FieldLibrary α) (r P N : Nat)
    (s : Particles α) (potential : lib.Field) (dt : α)
    (hP : 1 ≤ P) (hr : r < P) (hfuel : N < fuel) (i : Nat) (hi : i < N) (hown : i % P = r) :
    ∃ s1, update_particles fuel lib ⟨r, P⟩ s (N : Int) potential dt = some s1 ∧
      s1.vx i = s.vx i + lib.eval (compute_gradient lib potential 0) (s.position i) * dt ∧
      s1.vy i = s.vy i + lib.eval (compute_gradient lib potential 1) (s.position i) * dt ∧
      s1.vz i = s.vz i + lib.eval (compute_gradient lib potential 2) (s.position i) * dt ∧
      s1.x i = wrap_store update_particles.nx (s.x i + s1.vx i * dt) ∧
      s1.y i = wrap_store update_particles.ny (s.y i + s1.vy i * dt) ∧
      s1.z i = wrap_store update_particles.nz (s.z i + s1.vz i * dt) := by
  obtain ⟨s1, hrun, hspec⟩ := update_particles_spec fuel lib r P N s potential dt hP hr hfuel
  obtain ⟨hx, hy, hz, hvx, hvy, hvz⟩ := (hspec i).1 ⟨hi, hown⟩
  obtain ⟨bvx, bvy, bvz, bx, b_y, bz⟩ :=
    update_body_self lib (compute_gradient lib potential) dt s i
  refine ⟨s1, hrun, ?_, ?_, ?_, ?_, ?_, ?_⟩
  · rw [hvx, bvx]
  · rw [hvy, bvy]
  · rw [hvz, bvz]
  · rw [hx, bx, hvx, bvx]
  · rw [hy, b_y, hvy, bvy]
  · rw [hz, bz, hvz, bvz]

theorem semi_implicit_euler_witness :
    ∃ s1, update_particles 4 affine_library ⟨1, 2⟩ (resting_store 3) ((3 : Nat) : Int)
        ((2, 1 / 2) : ℚ × ℚ) (5 : ℚ) = some s1 ∧
      s1.vx 1 = (resting_store 3).vx 1
        + affine_library.eval (compute_gradient affine_library ((2, 1 / 2) : ℚ × ℚ) 0)
            ((resting_store 3).position 1) * 5 ∧
      s1.vy 1 = (resting_store 3).vy 1
        + affine_library.eval (compute_gradient affine_library ((2, 1 / 2) : ℚ × ℚ) 1)
            ((resting_store 3).position 1) * 5 ∧
      s1.vz 1 = (resting_store 3).vz 1
        + affine_library.eval (compute_gradient affine_library ((2, 1 / 2) : ℚ × ℚ) 2)
            ((resting_store 3).position 1) * 5 ∧
      s1.x 1 = wrap_store update_particles.nx ((resting_store 3).x 1 + s1.vx 1 * 5) ∧
      s1.y 1 = wrap_store update_particles.ny ((resting_store 3).y 1 + s1.vy 1 * 5) ∧
      s1.z 1 = wrap_store update_particles.nz ((resting_store 3).z 1 + s1.vz 1 * 5) :=
  semi_implicit_euler 4 affine_library 1 2 3 (resting_store 3) ((2, 1 / 2) : ℚ × ℚ) 5
    (by decide) (by decide) (by decide) 1 (by decide) (by decide)

/-- C8: ownership frame of `update_particles`.  A call by rank `r` of `P ≥ 1` workers returns
and leaves `x[i], y[i], z[i], vx[i], vy[i], vz[i]` unchanged for every index `i` with
`i mod P ≠ r`; and the new state of any index `i` depends only on the old state of index `i`
(with the potential, the time step, the rank, `P` and `N` fixed): a second call on a store `t`
that agrees with `s` at index `i` produces the same six values at index `i`. -/
theorem ownership_frame (fuel : Nat) (lib : FieldLibrary α) (r P N : Nat)
    (s t : Particles α) (potential : lib.Field) (dt : α)
    (hP : 1 ≤ P) (hr : r < P) (hfuel : N < fuel) (i : Nat) :
    ∃ s1 t1, update_particles fuel lib ⟨r, P⟩ s (N : Int) potential dt = some s1 ∧
      update_particles fuel lib ⟨r, P⟩ t (N : Int) potential dt = some t1 ∧
      (i % P ≠ r → s1.x i = s.x i ∧ s1.y i = s.y i ∧ s1.z i = s.z i ∧
        s1.vx i = s.vx i ∧ s1.vy i = s.vy i ∧ s1.vz i = s.vz i) ∧
      (s.agree_at t i → s1.agree_at t1 i) := by
  obtain ⟨s1, hs, hspec⟩ := update_particles_spec fuel lib r P N s potential dt hP hr hfuel
  obtain ⟨t1, ht, tspec⟩ := update_particles_spec fuel lib r P N t potential dt hP hr hfuel
  refine ⟨s1, t1, hs, ht, ?_, ?_⟩
  · intro hne
    exact (hspec i).2 (fun h => hne h.2)
  · intro hst
    by_cases hown : i < N ∧ i % P = r
    · exact agree_at_trans ((hspec i).1 hown)
        (agree_at_trans (update_body_local lib _ dt s t i hst) (agree_at_symm ((tspec i).1 hown)))
    · exact agree_at_trans ((hspec i).2 hown)
        (agree_at_trans hst (agree_at_symm ((tspec i).2 hown)))

/-- The positions the loop body stores at its own index are the write-backs of the pre-wrap
position. -/
theorem update_body_prewrap (lib : FieldLibrary α) (potential : lib.Field) (dt : α)
    (s : Particles α) (i : Nat) :
    (update_body lib (compute_gradient lib potential) dt i s).x i
      = wrap_store update_particles.nx (prewrap_position lib potential dt s i 0) ∧
    (update_body lib (compute_gradient lib potential) dt i s).y i
      = wrap_store update_particles.ny (prewrap_position lib potential dt s i 1) ∧
    (update_body lib (compute_gradient lib potential) dt i s).z i
      = wrap_store update_particles.nz (prewrap_position lib potential dt s i 2) := by
  simp [update_body, prewrap_position, new_velocity, Particles.position, Particles.velocity]

/-- C5: position-range invariant of the integrator.  With `L` the wrap extent of an axis, every
owned particle whose pre-wrap coordinate `p` on that axis satisfies `2 - L ≤ p ≤ 2 L - 1` is
stored with a coordinate in `[1, L]`; hence, if all particles are in the domain before the call
and no owned particle's pre-wrap position differs from its old position by more than `L - 1`
on any axis, all particles are in the domain after the call. -/
theorem position_range (fuel : Nat) (lib : FieldLibrary α) (r P N : Nat)
    (s : Particles α) (potential : lib.Field) (dt : α)
    (hP : 1 ≤ P) (hr : r < P) (hfuel : N < fuel) :
    ∃ s1, update_particles fuel lib ⟨r, P⟩ s (N : Int) potential dt = some s1 ∧
      (∀ i, i < N → i % P = r →
        (2 - ((update_particles.nx : Int) : α) ≤ prewrap_position lib potential dt s i 0 →
          prewrap_position lib potential dt s i 0 ≤ 2 * ((update_particles.nx : Int) : α) - 1 →
          1 ≤ s1.x i ∧ s1.x i ≤ ((update_particles.nx : Int) : α)) ∧
        (2 - ((update_particles.ny : Int) : α) ≤ prewrap_position lib potential dt s i 1 →
          prewrap_position lib potential dt s i 1 ≤ 2 * ((update_particles.ny : Int) : α) - 1 →
          1 ≤ s1.y i ∧ s1.y i ≤ ((update_particles.ny : Int) : α)) ∧
        (2 - ((update_particles.nz : Int) : α) ≤ prewrap_position lib potential dt s i 2 →
          prewrap_position lib potential dt s i 2 ≤ 2 * ((update_particles.nz : Int) : α) - 1 →
          1 ≤ s1.z i ∧ s1.z i ≤ ((update_particles.nz : Int) : α))) ∧
      ((∀ j, s.in_domain j) →
        (∀ j, j < N → j % P = r →
          |prewrap_position lib potential dt s j 0 - s.x j|
            ≤ ((update_particles.nx : Int) : α) - 1 ∧
          |prewrap_position lib potential dt s j 1 - s.y j|
            ≤ ((update_particles.ny : Int) : α) - 1 ∧
          |prewrap_position lib potential dt s j 2 - s.z j|
            ≤ ((update_particles.nz : Int) : α) - 1) →
        ∀ j, s1.in_domain j) := by
  obtain ⟨s1, hrun, hspec⟩ := update_particles_spec fuel lib r P N s potential dt hP hr hfuel
  have hown : ∀ i, i < N → i % P = r →
      s1.x i = wrap_store update_particles.nx (prewrap_position lib potential dt s i 0) ∧
      s1.y i = wrap_store update_particles.ny (prewrap_position lib potential dt s i 1) ∧
      s1.z i = wrap_store update_particles.nz (prewrap_position lib potential dt s i 2) := by
    intro i hi hmod
    obtain ⟨hx, hy, hz, _, _, _⟩ := (hspec i).1 ⟨hi, hmod⟩
    obtain ⟨bx, b_y, bz⟩ := update_body_prewrap lib potential dt s i
    exact ⟨hx.trans bx, hy.trans b_y, hz.trans bz⟩
  refine ⟨s1, hrun, ?_, ?_⟩
  · intro i hi hmod
    obtain ⟨hx, hy, hz⟩ := hown i hi hmod
    refine ⟨fun h1 h2 => ?_, fun h1 h2 => ?_, fun h1 h2 => ?_⟩
    · rw [hx]; exact wrap_store_range _ _ h1 h2
    · rw [hy]; exact wrap_store_range _ _ h1 h2
    · rw [hz]; exact wrap_store_range _ _ h1 h2
  · intro hdom hmove j
    by_cases hj : j < N ∧ j % P = r
    · obtain ⟨hx, hy, hz⟩ := hown j hj.1 hj.2
      obtain ⟨mx, my, mz⟩ := hmove j hj.1 hj.2
      obtain ⟨⟨dx1, dx2⟩, ⟨dy1, dy2⟩, ⟨dz1, dz2⟩⟩ := hdom j
      rw [abs_le] at mx my mz
      refine ⟨?_, ?_, ?_⟩
      · rw [hx]; exact wrap_store_range _ _ (by linarith [mx.1]) (by linarith [mx.2])
      · rw [hy]; exact wrap_store_range _ _ (by linarith [my.1]) (by linarith [my.2])
      · rw [hz]; exact wrap_store_range _ _ (by linarith [mz.1]) (by linarith [mz.2])
    · obtain ⟨hx, hy, hz, _, _, _⟩ := (hspec j).2 hj
      have h := hdom j
      unfold Particles.in_domain at h ⊢
      rw [hx, hy, hz]
      exact h

theorem position_range_witness :
    ∃ s1, update_particles 4 affine_library ⟨1, 2⟩ (resting_store 3) ((3 : Nat) : Int)
        ((2, 1 / 2) : ℚ × ℚ) (5 : ℚ) = some s1 ∧
      (∀ i, i < 3 → i % 2 = 1 →
        (2 - ((update_particles.nx : Int) : ℚ)
            ≤ prewrap_position affine_library ((2, 1 / 2) : ℚ × ℚ) 5 (resting_store 3) i 0 →
          prewrap_position affine_library ((2, 1 / 2) : ℚ × ℚ) 5 (resting_store 3) i 0
            ≤ 2 * ((update_particles.nx : Int) : ℚ) - 1 →
          1 ≤ s1.x i ∧ s1.x i ≤ ((update_particles.nx : Int) : ℚ)) ∧
        (2 - ((update_particles.ny : Int) : ℚ)
            ≤ prewrap_position affine_library ((2, 1 / 2) : ℚ × ℚ) 5 (resting_store 3) i 1 →
          prewrap_position affine_library ((2, 1 / 2) : ℚ × ℚ) 5 (resting_store 3) i 1
            ≤ 2 * ((update_particles.ny : Int) : ℚ) - 1 →
          1 ≤ s1.y i ∧ s1.y i ≤ ((update_particles.ny : Int) : ℚ)) ∧
        (2 - ((update_particles.nz : Int) : ℚ)
            ≤ prewrap_position affine_library ((2, 1 / 2) : ℚ × ℚ) 5 (resting_store 3) i 2 →
          prewrap_position affine_library ((2, 1 / 2) : ℚ × ℚ) 5 (resting_store 3) i 2
            ≤ 2 * ((update_particles.nz : Int) : ℚ) - 1 →
          1 ≤ s1.z i ∧ s1.z i ≤ ((update_particles.nz : Int) : ℚ))) ∧
      ((∀ j, (resting_store 3).in_domain j) →
        (∀ j, j < 3 → j % 2 = 1 →
          |prewrap_position affine_library ((2, 1 / 2) : ℚ × ℚ) 5 (resting_store 3) j 0
              - (resting_store 3).x j| ≤ ((update_particles.nx : Int) : ℚ) - 1 ∧
          |prewrap_position affine_library ((2, 1 / 2) : ℚ × ℚ) 5 (resting_store 3) j 1
              - (resting_store 3).y j| ≤ ((update_particles.ny : Int) : ℚ) - 1 ∧
          |prewrap_position affine_library ((2, 1 / 2) : ℚ × ℚ) 5 (resting_store 3) j 2
              - (resting_store 3).z j| ≤ ((update_particles.nz : Int) : ℚ) - 1) →
        ∀ j, s1.in_domain j) :=
  position_range 4 affine_library 1 2 3 (resting_store 3) ((2, 1 / 2) : ℚ × ℚ) 5
    (by decide) (by decide) (by decide)

/-- The pre-wrap position of a resting particle at `x = 3` under the constant force `1/2` with
time step `5`: `3 + (0 + 1/2 * 5) * 5 = 31/2`. -/
theorem prewrap_position_example :
    prewrap_position affine_library ((2, 1 / 2) : ℚ × ℚ) 5 (resting_store 3) 1 0
      = 31 / 2 := by
  simp [prewrap_position, new_velocity, position_loop_apply, velocity_loop_apply,
    compute_gradient, affine_library, resting_store, Particles.position, Particles.velocity]
  norm_num

theorem ownership_frame_witness :
    0 % 2 ≠ 1 ∧
    (resting_store 3).agree_at
      { resting_store 3 with x := fun j => if j = 0 then 3 else 7 } 0 ∧
    ∃ s1 t1,
      update_particles 4 affine_library ⟨1, 2⟩ (resting_store 3) ((3 : Nat) : Int)
        ((2, 1 / 2) : ℚ × ℚ) (5 : ℚ) = some s1 ∧
      update_particles 4 affine_library ⟨1, 2⟩
        { resting_store 3 with x := fun j => if j = 0 then 3 else 7 } ((3 : Nat) : Int)
        ((2, 1 / 2) : ℚ × ℚ) (5 : ℚ) = some t1 ∧
      (0 % 2 ≠ 1 → s1.x 0 = (resting_store 3).x 0 ∧ s1.y 0 = (resting_store 3).y 0 ∧
        s1.z 0 = (resting_store 3).z 0 ∧ s1.vx 0 = (resting_store 3).vx 0 ∧
        s1.vy 0 = (resting_store 3).vy 0 ∧ s1.vz 0 = (resting_store 3).vz 0) ∧
      ((resting_store 3).agree_at
          { resting_store 3 with x := fun j => if j = 0 then 3 else 7 } 0 →
        s1.agree_at t1 0) :=
  ⟨by decide, by simp [Particles.agree_at, resting_store],
    ownership_frame 4 affine_library 1 2 3 (resting_store 3)
      { resting_store 3 with x := fun j => if j = 0 then 3 else 7 } ((2, 1 / 2) : ℚ × ℚ) 5
      (by decide) (by decide) (by decide) 0⟩

/-- C7 as stated fails: a particle at rest at `(1/2, 1, 1)`, outside the wrap range, in a zero
force field, is stored at `x = 1/2 + 127 = 255/2` by `update_particles`. -/
theorem rest_outside_domain_moves :
    (resting_store (1 / 2)).vx 0 = 0 ∧ (resting_store (1 / 2)).vy 0 = 0 ∧
    (resting_store (1 / 2)).vz 0 = 0 ∧
    (∀ a, affine_library.eval (compute_gradient affine_library ((0, 0) : ℚ × ℚ) a)
      ((resting_store (1 / 2)).position 0) = 0) ∧
    (resting_store (1 / 2)).x 0 = 1 / 2 ∧
    ∃ s1, update_particles 2 affine_library ⟨0, 1⟩ (resting_store (1 / 2)) 1
        ((0, 0) : ℚ × ℚ) (5 : ℚ) = some s1 ∧
      s1.x 0 = 255 / 2 ∧ s1.x 0 ≠ (resting_store (1 / 2)).x 0 := by
  have hforce : ∀ a, affine_library.eval (compute_gradient affine_library ((0, 0) : ℚ × ℚ) a)
      ((resting_store (1 / 2)).position 0) = 0 := by
    intro a
    fin_cases a <;> simp [compute_gradient, affine_library]
  have hx : (update_body affine_library (compute_gradient affine_library ((0, 0) : ℚ × ℚ)) 5 0
      (resting_store (1 / 2))).x 0 = 255 / 2 := by
    rw [(update_body_self affine_library _ 5 (resting_store (1 / 2)) 0).2.2.2.1, hforce 0]
    norm_num [resting_store, wrap_store, wrap_offset, update_particles.nx]
  refine ⟨rfl, rfl, rfl, hforce, rfl, _, rfl, hx, ?_⟩
  rw [show (resting_store (1 / 2)).x 0 = 1 / 2 from rfl]
  exact hx.trans_ne (by norm_num)

/-- C7, amended: no-op case of `update_particles`.  For every owned particle with velocity
`(0,0,0)` whose position lies in `[1, nx] × [1, ny] × [1, nz]` (the wrap range of
`update_particles`), and every time step, if the three force fields evaluate to zero at the
particle's position then the stored position and velocity equal their values before the
call. -/
theorem rest_noop (fuel : Nat) (lib : FieldLibrary α) (r P N : Nat)
    (s : Particles α) (potential : lib.Field) (dt : α)
    (hP : 1 ≤ P) (hr : r < P) (hfuel : N < fuel) (i : Nat) (hi : i < N) (hown : i % P = r)
    (hvx : s.vx i = 0) (hvy : s.vy i = 0) (hvz : s.vz i = 0)
    (hforce : ∀ a, lib.eval (compute_gradient lib potential a) (s.position i) = 0)
    (hdom : s.in_domain i) :
    ∃ s1, update_particles fuel lib ⟨r, P⟩ s (N : Int) potential dt = some s1 ∧
      s1.x i = s.x i ∧ s1.y i = s.y i ∧ s1.z i = s.z i ∧
      s1.vx i = s.vx i ∧ s1.vy i = s.vy i ∧ s1.vz i = s.vz i := by
  obtain ⟨s1, hrun, hspec⟩ := update_particles_spec fuel lib r P N s potential dt hP hr hfuel
  obtain ⟨hx, hy, hz, h4, h5, h6⟩ := (hspec i).1 ⟨hi, hown⟩
  obtain ⟨bvx, bvy, bvz, bx, b_y, bz⟩ :=
    update_body_self lib (compute_gradient lib potential) dt s i
  obtain ⟨⟨dx1, dx2⟩, ⟨dy1, dy2⟩, ⟨dz1, dz2⟩⟩ := hdom
  refine ⟨s1, hrun, ?_, ?_, ?_, ?_, ?_, ?_⟩
  · rw [hx, bx, hforce 0, hvx]
    simpa using wrap_store_inside update_particles.nx (s.x i) dx1 dx2
  · rw [hy, b_y, hforce 1, hvy]
    simpa using wrap_store_inside update_particles.ny (s.y i) dy1 dy2
  · rw [hz, bz, hforce 2, hvz]
    simpa using wrap_store_inside update_particles.nz (s.z i) dz1 dz2
  · rw [h4, bvx, hforce 0]; simp
  · rw [h5, bvy, hforce 1]; simp
  · rw [h6, bvz, hforce 2]; simp

theorem rest_noop_witness :
    ∃ s1, update_particles 4 affine_library ⟨1, 2⟩ (resting_store 3) ((3 : Nat) : Int)
        ((0, 0) : ℚ × ℚ) (5 : ℚ) = some s1 ∧
      s1.x 1 = (resting_store 3).x 1 ∧ s1.y 1 = (resting_store 3).y 1 ∧
      s1.z 1 = (resting_store 3).z 1 ∧ s1.vx 1 = (resting_store 3).vx 1 ∧
      s1.vy 1 = (resting_store 3).vy 1 ∧ s1.vz 1 = (resting_store 3).vz 1 :=
  rest_noop 4 affine_library 1 2 3 (resting_store 3) ((0, 0) : ℚ × ℚ) 5
    (by decide) (by decide) (by decide) 1 (by decide) (by decide) rfl rfl rfl
    (by intro a; fin_cases a <;> simp [compute_gradient, affine_library])
    (by norm_num [Particles.in_domain, resting_store, update_particles.nx,
      update_particles.ny, update_particles.nz])

/-! ## The potential -/

/-- C4: gauge-fix invariant of `compute_potential`.  If subtracting a scalar `c` from a field
lowers its integral by `c * cell_volume` (the integral is linear and the constant field `c`
integrates to `c * cell_volume`) and the cell volume is non-zero, then for every density field
and every pair of precision parameters the returned potential integrates to zero. -/
theorem gauge_fix (lib : FieldLibrary α) (d : FunctionDefaults α) (density : lib.Field)
    (precision threshold : α)
    (hlinear : ∀ (f : lib.Field) (c : α),
      lib.trace (lib.sub_scalar f c) = lib.trace f - c * lib.get_cell_volume d)
    (hvolume : lib.get_cell_volume d ≠ 0) :
    lib.trace (compute_potential lib d density precision threshold) = 0 ∧
    compute_potential lib d density precision threshold
      = lib.sub_scalar (lib.CoulombOperator d precision threshold density)
          (lib.trace (lib.CoulombOperator d precision threshold density)
            / lib.get_cell_volume d) := by
  refine ⟨?_, rfl⟩
  simp only [compute_potential]
  rw [hlinear, div_mul_cancel₀ _ hvolume, sub_self]

theorem gauge_fix_witness :
    affine_library.trace (compute_potential affine_library sample_defaults
      ((3, 2) : ℚ × ℚ) (1 / 10 ^ 6) (1 / 10 ^ 8)) = 0 ∧
    compute_potential affine_library sample_defaults ((3, 2) : ℚ × ℚ) (1 / 10 ^ 6) (1 / 10 ^ 8)
      = affine_library.sub_scalar
          (affine_library.CoulombOperator sample_defaults (1 / 10 ^ 6) (1 / 10 ^ 8)
            ((3, 2) : ℚ × ℚ))
          (affine_library.trace
            (affine_library.CoulombOperator sample_defaults (1 / 10 ^ 6) (1 / 10 ^ 8)
              ((3, 2) : ℚ × ℚ))
            / affine_library.get_cell_volume sample_defaults) :=
  gauge_fix affine_library sample_defaults ((3, 2) : ℚ × ℚ) (1 / 10 ^ 6) (1 / 10 ^ 8)
    (by intro f c; simp [affine_library]; ring)
    (by simp [affine_library])

/-! ## The step loop of `main` -/

theorem allocate_some (nx ny nz nparticles : Int) (hn : 0 ≤ nparticles)
    (hc : 0 ≤ grid_cells nx ny nz) :
    (allocate nx ny nz nparticles : Option (Particles α × (Nat → α) × (Nat → α)))
      = some ({ x := fun _ => 0, y := fun _ => 0, z := fun _ => 0,
                vx := fun _ => 0, vy := fun _ => 0, vz := fun _ => 0 },
              fun _ => 0, fun _ => 0) := by
  simp [allocate, vector_resize, not_lt.mpr hn, not_lt.mpr hc]

theorem allocate_none (nx ny nz nparticles : Int)
    (h : nparticles < 0 ∨ grid_cells nx ny nz < 0) :
    (allocate nx ny nz nparticles : Option (Particles α × (Nat → α) × (Nat → α))) = none := by
  by_cases hn : nparticles < 0
  · simp [allocate, vector_resize, hn]
  · have hc : grid_cells nx ny nz < 0 := h.resolve_left hn
    simp [allocate, vector_resize, hn, hc]

theorem memset_zero_of_zero (density : Nat → α) (count : Int) (h : ∀ i, density i = 0) :
    ∀ i, memset_zero density count i = 0 := by
  intro i
  simp [memset_zero, h i]

/-- One iteration of the step loop completes when the particle loop returns and the `memset`
stays inside the density array; it records the density it handed to `solve_potential`, and
leaves the global cell set from `nx`. -/
theorem step_body_spec (fuel : Nat) (lib : FieldLibrary α) (world : World)
    (nx ny nz nparticles : Int) (dt : α) (st : Simulation α) (k : Nat)
    (hP : 1 ≤ world.size) (hr : world.rank < world.size) (hn : 0 ≤ nparticles)
    (hm : memset_bytes nx ny nz ≤ 8 * st.density_size)
    (hfuel : nparticles.toNat < fuel) :
    ∃ st1, step_body fuel lib world nx ny nz nparticles dt st k = Except.ok st1 ∧
      st1.steps = st.steps + 1 ∧
      st1.solve_calls = st.solve_calls ++ [st.density] ∧
      st1.density = memset_zero st.density (memset_bytes nx ny nz / 8) ∧
      st1.density_size = st.density_size ∧
      st1.defaults.cell_hi = (nx : α) ∧
      update_particles fuel lib world st.particles nparticles
        (solve_potential lib st.defaults st.particles.x st.particles.y st.particles.z
          nx ny nz nparticles st.density).1 dt = some st1.particles := by
  obtain ⟨rank, size⟩ := world
  obtain ⟨moved, hrun, _⟩ := update_particles_spec fuel lib rank size nparticles.toNat
    st.particles (solve_potential lib st.defaults st.particles.x st.particles.y st.particles.z
      nx ny nz nparticles st.density).1 dt hP hr hfuel
  rw [Int.toNat_of_nonneg hn] at hrun
  refine ⟨{ particles := moved
            mass := st.mass
            density := memset_zero st.density (memset_bytes nx ny nz / 8)
            density_size := st.density_size
            defaults := (solve_potential lib st.defaults st.particles.x st.particles.y
              st.particles.z nx ny nz nparticles st.density).2
            solve_calls := st.solve_calls ++ [st.density]
            steps := st.steps + 1 }, ?_, rfl, rfl, rfl, rfl, rfl, hrun⟩
  simp only [step_body, hrun, if_pos hm]

/-- The step loop run over any list of step indices from a state whose density is zero: it
returns, executes one iteration per index, and every density it hands to `solve_potential`
is zero. -/
theorem step_loop_spec (fuel : Nat) (lib : FieldLibrary α) (world : World)
    (nx ny nz nparticles : Int) (dt : α)
    (hP : 1 ≤ world.size) (hr : world.rank < world.size) (hn : 0 ≤ nparticles)
    (hfuel : nparticles.toNat < fuel) (ks : List Nat) :
    ∀ st : Simulation α, (∀ i, st.density i = 0) →
      memset_bytes nx ny nz ≤ 8 * st.density_size →
      ∃ final,
        ks.foldlM (step_body fuel lib world nx ny nz nparticles dt) st = Except.ok final ∧
        final.steps = st.steps + ks.length ∧
        final.solve_calls.length = st.solve_calls.length + ks.length ∧
        (∀ ρ ∈ final.solve_calls, ρ ∈ st.solve_calls ∨ ∀ i, ρ i = 0) ∧
        (∀ i, final.density i = 0) := by
  induction ks with
  | nil =>
    intro st hz _
    exact ⟨st, rfl, rfl, rfl, fun ρ h => Or.inl h, hz⟩
  | cons k ks ih =>
    intro st hz hm
    obtain ⟨st1, hstep, hsteps, hcalls, hdens, hsize, _, _⟩ :=
      step_body_spec fuel lib world nx ny nz nparticles dt st k hP hr hn hm hfuel
    have hz1 : ∀ i, st1.density i = 0 := by
      rw [hdens]
      exact memset_zero_of_zero _ _ hz
    obtain ⟨final, hrun, fsteps, flen, fcalls, fz⟩ := ih st1 hz1 (by rw [hsize]; exact hm)
    refine ⟨final, ?_, ?_, ?_, ?_, fz⟩
    · rw [List.foldlM_cons, hstep]
      exact hrun
    · rw [fsteps, hsteps, List.length_cons]; omega
    · rw [flen, hcalls, List.length_append, List.length_cons, List.length_cons,
        List.length_nil]
      omega
    · intro ρ hρ
      rcases fcalls ρ hρ with h | h
      · rw [hcalls, List.mem_append, List.mem_singleton] at h
        rcases h with h | h
        · exact Or.inl h
        · exact Or.inr (fun i => h ▸ hz i)
      · exact Or.inr h

/-- When the allocations succeed and the `memset` stays inside the density array, `main` runs
its `nstep` iterations and returns `0`; every density handed to `solve_potential` is zero. -/
theorem main_spec (fuel : Nat) (lib : FieldLibrary α) (world : World) (get_dim : Startup)
    (part_init : Int → Int → Int → Int → Particles α → (Nat → α) → Particles α × (Nat → α))
    (d0 : FunctionDefaults α)
    (hP : 1 ≤ world.size) (hr : world.rank < world.size) (hn : 0 ≤ get_dim.nparticles)
    (hc : 0 ≤ grid_cells get_dim.nx get_dim.ny get_dim.nz)
    (hm : memset_bytes get_dim.nx get_dim.ny get_dim.nz
      ≤ 8 * grid_cells get_dim.nx get_dim.ny get_dim.nz)
    (hfuel : get_dim.nparticles.toNat < fuel) :
    ∃ final, main fuel lib world get_dim part_init d0 = Run.returned 0 final ∧
      final.steps = main.nstep ∧
      final.solve_calls.length = main.nstep ∧
      (∀ ρ ∈ final.solve_calls, ∀ i, ρ i = 0) := by
  obtain ⟨final, hrun, fsteps, flen, fcalls, _⟩ :=
    step_loop_spec fuel lib world get_dim.nx get_dim.ny get_dim.nz get_dim.nparticles
      (main.timestep : α) hP hr hn hfuel (List.range main.nstep)
      { particles := (part_init get_dim.nx get_dim.ny get_dim.nz get_dim.nparticles
            { x := fun _ => 0, y := fun _ => 0, z := fun _ => 0,
              vx := fun _ => 0, vy := fun _ => 0, vz := fun _ => 0 } (fun _ => 0)).1
        mass := (part_init get_dim.nx get_dim.ny get_dim.nz get_dim.nparticles
            { x := fun _ => 0, y := fun _ => 0, z := fun _ => 0,
              vx := fun _ => 0, vy := fun _ => 0, vz := fun _ => 0 } (fun _ => 0)).2
        density := fun _ => 0
        density_size := grid_cells get_dim.nx get_dim.ny get_dim.nz
        defaults := d0
        solve_calls := []
        steps := 0 }
      (fun _ => rfl) hm
  refine ⟨final, ?_, ?_, ?_, ?_⟩
  · simp only [main, allocate_some _ _ _ _ hn hc, hrun]
  · rw [fsteps, List.length_range]; simp
  · rw [flen, List.length_range]; simp
  · intro ρ hρ
    rcases fcalls ρ hρ with h | h
    · simp at h
    · exact h

theorem main_length_error (fuel : Nat) (lib : FieldLibrary α) (world : World)
    (get_dim : Startup)
    (part_init : Int → Int → Int → Int → Particles α → (Nat → α) → Particles α × (Nat → α))
    (d0 : FunctionDefaults α)
    (h : get_dim.nparticles < 0 ∨ grid_cells get_dim.nx get_dim.ny get_dim.nz < 0) :
    main fuel lib world get_dim part_init d0 = Run.length_error := by
  simp only [main, allocate_none _ _ _ _ h]

/-- The two size computations at grids whose cell count does not fit a 32-bit `int`:
`2048 * 1024 * 1024` is the `int` `-2^31`, `2048^3` is the `int` `0` while the `memset` length
is `2^36` bytes; at `8^3` both agree. -/
theorem grid_size_examples :
    grid_cells 2048 1024 1024 = -2147483648 ∧
    grid_cells 2048 2048 2048 = 0 ∧ memset_bytes 2048 2048 2048 = 68719476736 ∧
    grid_cells 8 8 8 = 512 ∧ memset_bytes 8 8 8 = 8 * 512 := by
  decide

theorem int_wrap_modEq (v : Int) : int_wrap v ≡ v [ZMOD 2 ^ 32] := by
  unfold int_wrap
  have h : (v + 2 ^ 31) % 2 ^ 32 ≡ v + 2 ^ 31 [ZMOD 2 ^ 32] := Int.mod_modEq _ _
  have h2 := h.sub_right (2 ^ 31)
  rwa [add_sub_cancel_right] at h2

theorem int_wrap_range (v : Int) : -2 ^ 31 ≤ int_wrap v ∧ int_wrap v < 2 ^ 31 := by
  unfold int_wrap
  have h1 := Int.emod_nonneg (v + 2 ^ 31) (show (2 ^ 32 : Int) ≠ 0 by norm_num)
  have h2 := Int.emod_lt_of_pos (v + 2 ^ 31) (show (0 : Int) < 2 ^ 32 by norm_num)
  constructor <;> omega

/-- When the cell count `nx * ny * nz` fits a 32-bit `int`, both size computations of `main`
give it exactly. -/
theorem sizes_in_range (nx ny nz : Int) (h0 : 0 ≤ nx * ny * nz)
    (h1 : nx * ny * nz < 2 ^ 31) :
    grid_cells nx ny nz = nx * ny * nz ∧ memset_bytes nx ny nz = 8 * (nx * ny * nz) := by
  constructor
  · have hm : grid_cells nx ny nz ≡ nx * ny * nz [ZMOD 2 ^ 32] := by
      unfold grid_cells int_mul
      exact (int_wrap_modEq _).trans ((int_wrap_modEq _).mul_right nz)
    obtain ⟨hlo, hhi⟩ := int_wrap_range (int_mul nx ny * nz)
    have hd : (2 ^ 32 : Int) ∣ nx * ny * nz - grid_cells nx ny nz := hm.dvd
    obtain ⟨k, hk⟩ := hd
    have hg : grid_cells nx ny nz = int_wrap (int_mul nx ny * nz) := rfl
    omega
  · have hm : memset_bytes nx ny nz ≡ 8 * (nx * ny * nz) [ZMOD 2 ^ 64] := by
      unfold memset_bytes size_t_mul to_size_t
      have a : (8 * (nx % 2 ^ 64)) % 2 ^ 64 ≡ 8 * nx [ZMOD 2 ^ 64] :=
        (Int.mod_modEq _ _).trans ((Int.mod_modEq nx _).mul_left 8)
      have b : ((8 * (nx % 2 ^ 64)) % 2 ^ 64 * (ny % 2 ^ 64)) % 2 ^ 64
          ≡ 8 * nx * ny [ZMOD 2 ^ 64] :=
        (Int.mod_modEq _ _).trans (a.mul (Int.mod_modEq ny _))
      have c := (Int.mod_modEq (((8 * (nx % 2 ^ 64)) % 2 ^ 64 * (ny % 2 ^ 64)) % 2 ^ 64
        * (nz % 2 ^ 64)) (2 ^ 64)).trans (b.mul (Int.mod_modEq nz _))
      have e : 8 * nx * ny * nz = 8 * (nx * ny * nz) := by ring
      rw [e] at c
      exact c
    have hlo : 0 ≤ memset_bytes nx ny nz :=
      Int.emod_nonneg _ (show (2 ^ 64 : Int) ≠ 0 by norm_num)
    have hhi : memset_bytes nx ny nz < 2 ^ 64 :=
      Int.emod_lt_of_pos _ (show (0 : Int) < 2 ^ 64 by norm_num)
    obtain ⟨k, hk⟩ := hm.dvd
    omega

/-- The run of `main` at those two grids: the first ends in the `length_error` of
`density.resize`, the second allocates an empty density array and leaves it in the `memset` of
the first iteration. -/
theorem main_overflow_examples :
    main 2 affine_library ⟨0, 1⟩ ⟨2048, 1024, 1024, 1⟩ drifting_init sample_defaults
      = Run.length_error ∧
    main 2 affine_library ⟨0, 1⟩ ⟨2048, 2048, 2048, 1⟩ drifting_init sample_defaults
      = Run.memory_fault := by
  constructor
  · exact main_length_error 2 affine_library ⟨0, 1⟩ ⟨2048, 1024, 1024, 1⟩ drifting_init
      sample_defaults (Or.inr (by decide))
  · rfl

/-- C10: empty-density invariant of the step loop of `main`.  Whenever the allocations succeed
and the `memset` of line 311 stays inside the density array, the run returns after `nstep`
iterations, and for every step index `s` in `[0, nstep)` (including the first) every entry of
the density array passed to `solve_potential` is exactly `0`, whatever `part_init_` puts into
the particle and mass arrays and whatever the field library computes. -/
theorem empty_density (fuel : Nat) (lib : FieldLibrary α) (world : World) (get_dim : Startup)
    (part_init : Int → Int → Int → Int → Particles α → (Nat → α) → Particles α × (Nat → α))
    (d0 : FunctionDefaults α)
    (hP : 1 ≤ world.size) (hr : world.rank < world.size) (hn : 0 ≤ get_dim.nparticles)
    (hc : 0 ≤ grid_cells get_dim.nx get_dim.ny get_dim.nz)
    (hm : memset_bytes get_dim.nx get_dim.ny get_dim.nz
      ≤ 8 * grid_cells get_dim.nx get_dim.ny get_dim.nz)
    (hfuel : get_dim.nparticles.toNat < fuel) (s : Nat) (hs : s < main.nstep) :
    ∃ final ρ, main fuel lib world get_dim part_init d0 = Run.returned 0 final ∧
      final.steps = main.nstep ∧
      final.solve_calls.length = main.nstep ∧
      final.solve_calls[s]? = some ρ ∧ ∀ i, ρ i = 0 := by
  obtain ⟨final, hrun, hsteps, hlen, hzero⟩ :=
    main_spec fuel lib world get_dim part_init d0 hP hr hn hc hm hfuel
  have hlt : s < final.solve_calls.length := by rw [hlen]; exact hs
  exact ⟨final, final.solve_calls[s], hrun, hsteps, hlen, List.getElem?_eq_getElem hlt,
    hzero _ (List.getElem_mem hlt)⟩

theorem empty_density_witness :
    ∃ final ρ, main 3 affine_library ⟨0, 1⟩ ⟨8, 8, 8, 2⟩ drifting_init sample_defaults
        = Run.returned 0 final ∧
      final.steps = main.nstep ∧
      final.solve_calls.length = main.nstep ∧
      final.solve_calls[0]? = some ρ ∧ ∀ i, ρ i = 0 :=
  empty_density 3 affine_library ⟨0, 1⟩ ⟨8, 8, 8, 2⟩ drifting_init sample_defaults
    (by decide) (by decide) (by decide) (by decide) (by decide) (by decide) 0 (by decide)

/-- C9 as stated fails: with the startup result `nx = ny = nz = 8`, `nparticles = 0` (a
non-positive particle count) `main` executes all three iterations of the step loop and
returns status `0`.  Likewise a grid dimension of zero is not rejected before the step loop:
with `nx = 0`, `ny = nz = 8`, `nparticles = 1` every allocation succeeds, so the run does not
end in the `length_error` that precedes the loop. -/
theorem zero_particles_accepted :
    (⟨8, 8, 8, 0⟩ : Startup).nparticles ≤ 0 ∧
    (main 1 affine_library ⟨0, 1⟩ ⟨8, 8, 8, 0⟩ drifting_init sample_defaults).iterations = 3 ∧
    (∃ final, main 1 affine_library ⟨0, 1⟩ ⟨8, 8, 8, 0⟩ drifting_init sample_defaults
      = Run.returned 0 final) ∧
    (⟨0, 8, 8, 1⟩ : Startup).nx ≤ 0 ∧
    (allocate 0 8 8 1 : Option (Particles ℚ × (Nat → ℚ) × (Nat → ℚ))).isSome = true ∧
    main 2 affine_library ⟨0, 1⟩ ⟨0, 8, 8, 1⟩ drifting_init sample_defaults
      ≠ Run.length_error := by
  obtain ⟨final, hrun, hsteps, _, _⟩ :=
    main_spec 1 affine_library ⟨0, 1⟩ ⟨8, 8, 8, 0⟩ drifting_init sample_defaults
      (by decide) (by decide) (by decide) (by decide) (by decide) (by decide)
  obtain ⟨final0, hrun0, _, _, _⟩ :=
    main_spec 2 affine_library ⟨0, 1⟩ ⟨0, 8, 8, 1⟩ drifting_init sample_defaults
      (by decide) (by decide) (by decide) (by decide) (by decide) (by decide)
  refine ⟨by decide, ?_, ⟨final, hrun⟩, by decide, ?_, ?_⟩
  · rw [hrun]
    exact hsteps
  · rw [allocate_some 0 8 8 1 (by decide) (by decide)]
    rfl
  · rw [hrun0]
    exact fun h => Run.noConfusion h

/-- C9, amended: `main` rejects a configuration before the step loop only through its
allocations.  For every startup result in which `nparticles` is negative, or the product
`nx*ny*nz` as computed in 32-bit `int` is negative, a `resize` throws `length_error` and the
run ends with an error without executing any iteration of the step loop; the time step is the
constant `5` and is never non-positive. -/
theorem rejected_by_allocation (fuel : Nat) (lib : FieldLibrary α) (world : World)
    (get_dim : Startup)
    (part_init : Int → Int → Int → Int → Particles α → (Nat → α) → Particles α × (Nat → α))
    (d0 : FunctionDefaults α)
    (h : get_dim.nparticles < 0 ∨ grid_cells get_dim.nx get_dim.ny get_dim.nz < 0) :
    (0 : α) < main.timestep ∧
    main fuel lib world get_dim part_init d0 = Run.length_error ∧
    (main fuel lib world get_dim part_init d0).iterations = 0 := by
  have hrun := main_length_error fuel lib world get_dim part_init d0 h
  refine ⟨?_, hrun, ?_⟩
  · simp [main.timestep]
  · rw [hrun]
    rfl

theorem rejected_by_allocation_witness :
    (0 : ℚ) < main.timestep ∧
    main 3 affine_library ⟨1, 2⟩ ⟨8, 8, 8, -1⟩ drifting_init sample_defaults
      = Run.length_error ∧
    (main 3 affine_library ⟨1, 2⟩ ⟨8, 8, 8, -1⟩ drifting_init sample_defaults).iterations
      = 0 :=
  rejected_by_allocation 3 affine_library ⟨1, 2⟩ ⟨8, 8, 8, -1⟩ drifting_init sample_defaults
    (Or.inl (by decide))

/-- C6, the code at a failing input: the startup kernel returns `nx = ny = nz = 8` and one
particle at `(8, 4, 4)` with velocity `(1/10, 0, 0)`; the force is zero.  `solve_potential` sets
the periodic cell to `[1, 8]`, yet `update_particles` wraps at its own constant `128`: after the
three steps the particle is stored at `x = 8 + 3 * 1/2 = 19/2`, outside the cell. -/
theorem wrap_extent_hard_coded :
    update_particles.nx ≠ (⟨8, 8, 8, 1⟩ : Startup).nx ∧
    ∃ final, main 2 affine_library ⟨0, 1⟩ ⟨8, 8, 8, 1⟩ drifting_init sample_defaults
        = Run.returned 0 final ∧
      final.defaults.cell_lo = 1 ∧ final.defaults.cell_hi = 8 ∧
      final.particles.x 0 = 19 / 2 ∧ final.particles.vx 0 = 1 / 10 := by
  refine ⟨by decide, _, rfl, ?_, ?_, ?_, ?_⟩
  · simp [set_initial_parameters, set_projection_precision, solve_potential]
  · simp [set_initial_parameters, set_projection_precision, solve_potential]
  · simp [update_body, velocity_loop_apply, position_loop_apply, solve_potential,
      compute_potential, build_projected_density, compute_gradient, affine_library,
      memset_zero, drifting_init, wrap_store, wrap_offset, update_particles.nx, main.timestep]
    norm_num
  · simp [update_body, velocity_loop_apply, position_loop_apply, solve_potential,
      compute_potential, build_projected_density, compute_gradient, affine_library,
      memset_zero, drifting_init, main.timestep]

end Xerxes
